import Mathlib

/-!
# Verification of the MOVO hall-booking engine

Shallow embedding of the booking core of `hall_booking.py` (Flask/SQLite
variant) and `functions/main.py` (Firestore variant).  Naive local datetimes
are modelled as integer seconds since an epoch in the single configured zone
(`Asia/Qatar`); `datetime` arithmetic on naive values is isomorphic to integer
arithmetic on seconds, `.date()` is floor-division by 86400 and `.time()` is
the remainder.  The SQLAlchemy / Firestore row sets are modelled as a list of
bookings together with the autoincrement counter.
-/

namespace HallBooking

/-- `datetime.date()`: the calendar day number of an instant. -/
def dateOf (t : Int) : Int := t / 86400

/-- `datetime.time()`: the second-of-day of an instant (Python compares
`time` objects exactly as these numbers compare). -/
def timeOf (t : Int) : Int := t % 86400

/-- The calendar fields of a `datetime` produced by `dateutil.parser.parse`:
the date collapsed to a day number plus the time-of-day fields. -/
structure ParsedDT where
  day : Int
  hour : Nat
  minute : Nat
  second : Nat
  microsecond : Nat
deriving Repr, DecidableEq

/-- `datetime(dt.year, dt.month, dt.day, dt.hour, dt.minute, 0)`:
rebuild the instant from a parsed datetime, discarding seconds and
sub-seconds (they are dropped, not rounded). -/
def ParsedDT.dropSeconds (p : ParsedDT) : Int :=
  p.day * 86400 + (p.hour : Int) * 3600 + (p.minute : Int) * 60

/-- A parsing oracle standing for `dateutil.parser.parse`; `none` models the
parser raising an exception. -/
abbrev DtParse := String → Option ParsedDT

/-- `hall_booking.py:_parse_local` / `functions/main.py:_parse_and_make_naive`:
parse a datetime string, then rebuild it with the seconds field forced to 0. -/
def parse_local (dtp : DtParse) (s : String) : Option Int :=
  (dtp s).map ParsedDT.dropSeconds

/-- One reservation row (`Booking` model / one Firestore document).
`created_at` is omitted: no behaviour in the core reads it. -/
structure Booking where
  id : Nat
  title : String
  name : String
  email : Option String
  start_at : Int
  end_at : Int
deriving Repr, DecidableEq

/-- The authoritative reservation set: the table rows plus the autoincrement
primary-key counter (ids are assigned increasing and never reused). -/
structure Store where
  bookings : List Booking
  next_id : Nat
deriving Repr, DecidableEq

/-- The initially empty store. -/
def Store.empty : Store := { bookings := [], next_id := 1 }

/-- The row predicate of `get_conflict`'s query:
`Booking.start_at < end_at AND Booking.end_at > start_at`. -/
def Booking.hits (b : Booking) (start_at end_at : Int) : Bool :=
  decide (b.start_at < end_at) && decide (b.end_at > start_at)

/-- `hall_booking.py:get_conflict`: first booking whose interval overlaps the
candidate range, optionally excluding one id.  `if exclude_id:` is Python
truthiness, so the exclusion filter is skipped for `None` and for id `0`. -/
def get_conflict (start_at end_at : Int) (exclude_id : Option Nat)
    (bs : List Booking) : Option Booking :=
  let q := bs.filter (fun b => b.hits start_at end_at)
  let q := match exclude_id with
    | none => q
    | some eid => if eid = 0 then q else q.filter (fun b => decide ¬(b.id = eid))
  q.head?

/-- Python `\s` for the ASCII range: the whitespace class used by
`str.strip()` and by the email regex. -/
def isPyWS (c : Char) : Bool :=
  c = ' ' || c = '\t' || c = '\n' || c = '\r' || c = '\x0b' || c = '\x0c'

/-- Python `str.strip()`: drop leading and trailing whitespace. -/
def pyStrip (s : String) : String :=
  String.mk (((s.data.dropWhile isPyWS).reverse.dropWhile isPyWS).reverse)

/-- Core of the email regular expression
`[^@\s]+@[^@\s]+\.[^@\s]+` anchored at both ends: exactly one `@`, a
non-empty whitespace-free local part, and a domain containing a dot with
non-empty whitespace-free text on both sides. -/
def email_core (cs : List Char) : Bool :=
  match cs.splitOn '@' with
  | [l, dom] =>
      !l.isEmpty && l.all (fun c => !isPyWS c) &&
      !dom.isEmpty && dom.all (fun c => !isPyWS c) &&
      ((dom.drop 1).dropLast.contains '.')
  | _ => false

/-- `valid_email` (identical in both variants): the empty string is accepted
(the field is optional); otherwise `re.match` of the pattern must succeed.
`re`'s `$` also matches just before one trailing newline, which is kept here
for fidelity even though callers always strip the input first. -/
def valid_email (email : String) : Bool :=
  if email = "" then true
  else
    email_core email.data ||
      (email.data.getLast? = some '\n' && email_core email.data.dropLast)

/-- The raw form/JSON fields of a create request; `none` models an absent
key (`request.form.get` / `data.get` returning `None`). -/
structure CreateInput where
  title : Option String
  name : Option String
  email : Option String
  start_at : Option String
  end_at : Option String
deriving Repr, DecidableEq

/-- The structured rejection reasons of the create/delete paths. -/
inductive Reject where
  | missingField
  | invalidEmail
  | malformedTime
  | pastBooking
  | nonPositiveDuration
  | durationExceeded
  | conflict (b : Booking)
deriving Repr, DecidableEq

/-- The overnight-rollover adjustment of `create_booking`:
`if end_at.date() == start_at.date() and end_at.time() < start_at.time():
end_at += timedelta(days=1)`. -/
def rolloverEnd (s e : Int) : Int :=
  if dateOf e = dateOf s ∧ timeOf e < timeOf s then e + 86400 else e

/-- Outcome of the time checks of `create_booking`. -/
inductive TResult where
  | ok (start_at end_at : Int)
  | error (r : Reject)
deriving Repr, DecidableEq

/-- Checks 4-7 of `create_booking`, in source order: overnight rollover
applied to the end (`rolloverEnd s e0` below), then `start_at < now`, then
`end_at <= start_at`, then `end_at - start_at > timedelta(hours=6)`. -/
def validate_times (s e0 now : Int) : TResult :=
  if s < now then .error .pastBooking
  else if rolloverEnd s e0 ≤ s then .error .nonPositiveDuration
  else if rolloverEnd s e0 - s > 6 * 3600 then .error .durationExceeded
  else .ok s (rolloverEnd s e0)

/-- Outcome of the pure validation prefix of `create_booking`. -/
inductive VResult where
  | ok (title name : String) (email : Option String) (start_at end_at : Int)
  | error (r : Reject)
deriving Repr, DecidableEq

/-- The validation prefix of `create_booking` (both variants), in source
order: required-field truthiness (`title` and `name` stripped, the two time
texts checked raw), email shape, parsing of both time texts, then the time
checks.  The stored email is `email or None`. -/
def create_validate (dtp : DtParse) (inp : CreateInput) (now : Int) : VResult :=
  let title := pyStrip (inp.title.getD "")
  let name := pyStrip (inp.name.getD "")
  let email := pyStrip (inp.email.getD "")
  let start_raw := inp.start_at.getD ""
  let end_raw := inp.end_at.getD ""
  if title = "" ∨ name = "" ∨ start_raw = "" ∨ end_raw = "" then .error .missingField
  else if valid_email email = false then .error .invalidEmail
  else
    match parse_local dtp start_raw, parse_local dtp end_raw with
    | some s, some e =>
        match validate_times s e now with
        | .ok s' e' =>
            .ok title name (if email = "" then none else some email) s' e'
        | .error r => .error r
    | _, _ => .error .malformedTime

/-- Result of a create call. -/
inductive CreateResult where
  | ok (b : Booking)
  | error (r : Reject)
deriving Repr, DecidableEq

/-- `create_booking` run to completion in isolation: validate, find a
conflict against the committed state, and on success insert the new row with
the next autoincrement id. -/
def create_booking (dtp : DtParse) (inp : CreateInput) (now : Int)
    (st : Store) : CreateResult × Store :=
  match create_validate dtp inp now with
  | .error r => (.error r, st)
  | .ok title name email s e =>
      match get_conflict s e none st.bookings with
      | some b => (.error (.conflict b), st)
      | none =>
          let b : Booking :=
            { id := st.next_id, title := title, name := name, email := email,
              start_at := s, end_at := e }
          (.ok b, { bookings := st.bookings ++ [b], next_id := st.next_id + 1 })

/-- Result of a delete call. -/
inductive DeleteResult where
  | ok
  | notFound
deriving Repr, DecidableEq

/-- `hall_booking.py:delete_booking`: `get_or_404` then delete the row with
that primary key. -/
def delete_booking (id : Nat) (st : Store) : DeleteResult × Store :=
  match st.bookings.find? (fun b => decide (b.id = id)) with
  | none => (.notFound, st)
  | some _ =>
      (.ok, { bookings := st.bookings.filter (fun b => decide ¬(b.id = id)),
              next_id := st.next_id })

/-- `functions/main.py:delete_booking`: `document(id).delete()` then HTTP 200
unconditionally — a Firestore delete of an absent document succeeds silently,
so this route never reports not-found. -/
def fs_delete_booking (id : Nat) (st : Store) : DeleteResult × Store :=
  (.ok, { bookings := st.bookings.filter (fun b => decide ¬(b.id = id)),
          next_id := st.next_id })

/-- Ascending order on `start_at` (`order_by(Booking.start_at.asc())`). -/
def bookingLE (a b : Booking) : Prop := a.start_at ≤ b.start_at

instance : DecidableRel bookingLE := fun a b => Int.decLe a.start_at b.start_at

instance : IsTotal Booking bookingLE := ⟨fun a b => Int.le_total a.start_at b.start_at⟩

instance : IsTrans Booking bookingLE := ⟨fun _ _ _ h h' => le_trans h h'⟩

/-- `hall_booking.py:index`, read path for one day: select rows overlapping
`[day_start, day_start + 1 day)`, sorted ascending by `start_at`, and total
the clipped durations in floored whole minutes
(`total_minutes += max(0, int((e - s).total_seconds() // 60))`). -/
def index (selected_date : Int) (bs : List Booking) : List Booking × Int :=
  let day_start : Int := selected_date * 86400
  let day_end : Int := day_start + 86400
  let visible := List.insertionSort bookingLE
    (bs.filter (fun b => b.hits day_start day_end))
  let total_minutes := visible.foldl (fun acc b =>
    let s := max b.start_at day_start
    let e := min b.end_at day_end
    acc + max 0 ((e - s) / 60)) 0
  (visible, total_minutes)

/-- One sequential API call against the store. -/
inductive Op where
  | create (inp : CreateInput) (now : Int)
  | delete (id : Nat)

/-- Apply one sequential operation, keeping only the store. -/
def applyOp (dtp : DtParse) (st : Store) (op : Op) : Store :=
  match op with
  | .create inp now => (create_booking dtp inp now st).2
  | .delete id => (delete_booking id st).2

/-- The store reached by a sequence of sequential calls from the empty store. -/
def run (dtp : DtParse) (ops : List Op) : Store :=
  ops.foldl (applyOp dtp) Store.empty

/-- The half-open overlap relation on reservations
(`A.start < B.end AND A.end > B.start`). -/
def overlaps (a b : Booking) : Prop :=
  a.start_at < b.end_at ∧ a.end_at > b.start_at

instance (a b : Booking) : Decidable (overlaps a b) := by
  unfold overlaps; infer_instance

/-- The program counter of one in-flight create request.  The source performs
the conflict scan and the insert as two separate storage operations with no
lock or transaction around the pair, so another request's insert can land
between a request's scan and its own insert. -/
inductive ThreadPC where
  | toCheck
  | toInsert (title name : String) (email : Option String) (start_at end_at : Int)
  | succeeded (b : Booking)
  | rejected (r : Reject)
deriving Repr, DecidableEq

/-- One atomic storage step of an in-flight create request: first the
validate-and-scan step (reads the committed state), later the insert step
(writes the new row).  Exactly the two halves of `create_booking`. -/
def threadStep (dtp : DtParse) (inp : CreateInput) (now : Int) :
    ThreadPC → Store → ThreadPC × Store
  | .toCheck, st =>
      (match create_validate dtp inp now with
       | .error r => (.rejected r, st)
       | .ok title name email s e =>
           match get_conflict s e none st.bookings with
           | some b => (.rejected (.conflict b), st)
           | none => (.toInsert title name email s e, st))
  | .toInsert title name email s e, st =>
      let b : Booking :=
        { id := st.next_id, title := title, name := name, email := email,
          start_at := s, end_at := e }
      (.succeeded b, { bookings := st.bookings ++ [b], next_id := st.next_id + 1 })
  | pc, st => (pc, st)

/-- State of two concurrent create requests over the shared store. -/
structure RaceState where
  pc1 : ThreadPC
  pc2 : ThreadPC
  store : Store
deriving Repr, DecidableEq

/-- Let the scheduled thread (`true` = first request) take its next step. -/
def raceStep (dtp : DtParse) (i1 i2 : CreateInput) (now : Int)
    (st : RaceState) (tid : Bool) : RaceState :=
  if tid then
    let r := threadStep dtp i1 now st.pc1 st.store
    { st with pc1 := r.1, store := r.2 }
  else
    let r := threadStep dtp i2 now st.pc2 st.store
    { st with pc2 := r.1, store := r.2 }

/-- Run two concurrent create requests from the empty store under a given
interleaving of their storage steps. -/
def exec2 (dtp : DtParse) (i1 i2 : CreateInput) (now : Int)
    (sched : List Bool) : RaceState :=
  sched.foldl (raceStep dtp i1 i2 now) ⟨.toCheck, .toCheck, Store.empty⟩

/-- Civil date to day number since 1970-01-01 (standard days-from-civil
integer algorithm) — the day-number image of a `datetime.date`. -/
def days_from_civil (y m d : Int) : Int :=
  let y2 := if m ≤ 2 then y - 1 else y
  let era := (if 0 ≤ y2 then y2 else y2 - 399) / 400
  let yoe := y2 - era * 400
  let mp := (m + 9) % 12
  let doy := (153 * mp + 2) / 5 + d - 1
  let doe := yoe * 365 + yoe / 4 - yoe / 100 + doy
  era * 146097 + doe - 719468

/-- Decimal digit value of a character, if it is one. -/
def digitVal (c : Char) : Option Nat :=
  if c.isDigit then some (c.toNat - 48) else none

/-- Modelled from the spec: `dateutil.parser.parse` is an external library and
its source is not part of this repository.  Spec 4.1 guarantees that parsing
accepts at minimum the forms `YYYY-MM-DD HH:MM` and `YYYY-MM-DDTHH:MM`, never
infers a timezone from the text, and fails (`MalformedTime`) on text that
cannot be parsed as a date and time — in particular `dateutil` raises on a
whitespace-only string, which contains no date tokens.  This concrete
instance of the oracle accepts exactly those two forms with in-range fields. -/
def dtparse_model (s : String) : Option ParsedDT :=
  match s.data with
  | [y1, y2, y3, y4, '-', mo1, mo2, '-', d1, d2, sep, h1, h2, ':', mi1, mi2] =>
      if sep = ' ' || sep = 'T' then
        match digitVal y1, digitVal y2, digitVal y3, digitVal y4,
              digitVal mo1, digitVal mo2, digitVal d1, digitVal d2,
              digitVal h1, digitVal h2, digitVal mi1, digitVal mi2 with
        | some a, some b, some c, some d, some e, some f,
          some g, some h, some i, some j, some k, some l =>
            let year : Nat := 1000 * a + 100 * b + 10 * c + d
            let month : Nat := 10 * e + f
            let dayN : Nat := 10 * g + h
            let hour : Nat := 10 * i + j
            let minute : Nat := 10 * k + l
            if 1 ≤ month ∧ month ≤ 12 ∧ 1 ≤ dayN ∧ dayN ≤ 31 ∧
                hour < 24 ∧ minute < 60 then
              some ⟨days_from_civil (year : Int) (month : Int) (dayN : Int),
                    hour, minute, 0, 0⟩
            else none
        | _, _, _, _, _, _, _, _, _, _, _, _ => none
      else none
  | _ => none

/-! ## Helper lemmas -/

theorem hits_iff (b : Booking) (s e : Int) :
    b.hits s e = true ↔ (b.start_at < e ∧ b.end_at > s) := by
  simp [Booking.hits]

theorem get_conflict_none_iff (s e : Int) (bs : List Booking) :
    get_conflict s e none bs = none ↔ ∀ b ∈ bs, ¬ (b.start_at < e ∧ b.end_at > s) := by
  unfold get_conflict
  simp [List.head?_eq_none_iff, List.filter_eq_nil_iff, hits_iff]

theorem get_conflict_of_exists {s e : Int} {bs : List Booking}
    (h : ∃ b ∈ bs, b.start_at < e ∧ b.end_at > s) :
    ∃ c, get_conflict s e none bs = some c ∧ c ∈ bs ∧ c.start_at < e ∧ c.end_at > s := by
  unfold get_conflict
  obtain ⟨b, hb, hprop⟩ := h
  have hmem : b ∈ bs.filter (fun x => x.hits s e) :=
    List.mem_filter.mpr ⟨hb, (hits_iff b s e).mpr hprop⟩
  have hne : bs.filter (fun x => x.hits s e) ≠ [] := by
    intro hnil; rw [hnil] at hmem; cases hmem
  cases hq : bs.filter (fun x => x.hits s e) with
  | nil => exact absurd hq hne
  | cons c q =>
      refine ⟨c, rfl, ?_⟩
      have hcmem : c ∈ bs.filter (fun x => x.hits s e) := by rw [hq]; exact List.mem_cons_self c q
      have := List.mem_filter.mp hcmem
      exact ⟨this.1, (hits_iff c s e).mp this.2⟩

theorem parse_local_mod60 {dtp : DtParse} {str : String} {t : Int}
    (h : parse_local dtp str = some t) : t % 60 = 0 := by
  unfold parse_local at h
  cases hp : dtp str with
  | none => rw [hp] at h; cases h
  | some p =>
      rw [hp] at h
      simp only [Option.map_some'] at h
      cases h
      unfold ParsedDT.dropSeconds
      omega

theorem rolloverEnd_hit {s e : Int} (h : dateOf e = dateOf s ∧ timeOf e < timeOf s) :
    rolloverEnd s e = e + 86400 := by
  unfold rolloverEnd
  rw [if_pos h]

theorem rolloverEnd_miss {s e : Int} (h : ¬ (dateOf e = dateOf s ∧ timeOf e < timeOf s)) :
    rolloverEnd s e = e := by
  unfold rolloverEnd
  rw [if_neg h]

/-- The rollover never fires on an end that already lies after the start:
the condition demands the same date with a strictly earlier time-of-day. -/
theorem rolloverEnd_add_of_pos {s : Int} {d : Int} (hd : 0 < d) :
    rolloverEnd s (s + d) = s + d := by
  apply rolloverEnd_miss
  intro hc
  obtain ⟨h1, h2⟩ := hc
  unfold dateOf at h1
  unfold timeOf at h2
  omega

/-- Applying the rollover a second time never changes anything: after the
adjustment the dates differ, so the condition is false. -/
theorem rolloverEnd_idem (s e : Int) :
    rolloverEnd s (rolloverEnd s e) = rolloverEnd s e := by
  by_cases h : dateOf e = dateOf s ∧ timeOf e < timeOf s
  · rw [rolloverEnd_hit h]
    apply rolloverEnd_miss
    intro hc
    obtain ⟨h1, _⟩ := hc
    obtain ⟨hd, _⟩ := h
    unfold dateOf at h1 hd
    omega
  · rw [rolloverEnd_miss h, rolloverEnd_miss h]

theorem rolloverEnd_mod60 {s e : Int} (he : e % 60 = 0) :
    rolloverEnd s e % 60 = 0 := by
  unfold rolloverEnd
  split_ifs <;> omega

theorem validate_times_ok_iff {s e0 now s' e' : Int} :
    validate_times s e0 now = .ok s' e' ↔
      (s' = s ∧ e' = rolloverEnd s e0 ∧ ¬ s < now ∧
       ¬ rolloverEnd s e0 ≤ s ∧ ¬ rolloverEnd s e0 - s > 6 * 3600) := by
  unfold validate_times
  split_ifs with h1 h2 h3
  · simp [h1]
  · simp [h2]
  · constructor
    · intro hcontra
      exact hcontra.elim
    · intro hr
      exact absurd h3 hr.2.2.2.2
  · constructor
    · intro h
      injection h with hs he
      exact ⟨hs.symm, he.symm, h1, h2, h3⟩
    · rintro ⟨rfl, rfl, -, -, -⟩
      rfl

theorem validate_times_error_shape {s e0 now : Int} {r : Reject}
    (h : validate_times s e0 now = .error r) :
    r = .pastBooking ∨ r = .nonPositiveDuration ∨ r = .durationExceeded := by
  unfold validate_times at h
  split_ifs at h <;> simp_all

theorem validate_times_pastBooking_iff {s e0 now : Int} :
    validate_times s e0 now = .error .pastBooking ↔ s < now := by
  unfold validate_times
  split_ifs <;> simp_all

theorem validate_times_nonPositive_iff {s e0 now : Int} :
    validate_times s e0 now = .error .nonPositiveDuration ↔
      (¬ s < now ∧ rolloverEnd s e0 ≤ s) := by
  unfold validate_times
  split_ifs <;> simp_all

theorem validate_times_durationExceeded_iff {s e0 now : Int} :
    validate_times s e0 now = .error .durationExceeded ↔
      (¬ s < now ∧ ¬ rolloverEnd s e0 ≤ s ∧ rolloverEnd s e0 - s > 6 * 3600) := by
  unfold validate_times
  split_ifs <;> simp_all

/-- The truthiness test of `create_booking`'s required-field check:
stripped `title` and `name`, raw `start_at` and `end_at` texts. -/
def missingCond (inp : CreateInput) : Prop :=
  pyStrip (inp.title.getD "") = "" ∨ pyStrip (inp.name.getD "") = "" ∨
  inp.start_at.getD "" = "" ∨ inp.end_at.getD "" = ""

instance (inp : CreateInput) : Decidable (missingCond inp) := by
  unfold missingCond; infer_instance

/-- Exhaustive case analysis of the validation prefix: exactly one of the
first-failure outcomes happens, in source order. -/
theorem create_validate_outcomes (dtp : DtParse) (inp : CreateInput) (now : Int) :
    (missingCond inp ∧ create_validate dtp inp now = .error .missingField) ∨
    (¬ missingCond inp ∧ valid_email (pyStrip (inp.email.getD "")) = false ∧
      create_validate dtp inp now = .error .invalidEmail) ∨
    (¬ missingCond inp ∧ valid_email (pyStrip (inp.email.getD "")) = true ∧
      (parse_local dtp (inp.start_at.getD "") = none ∨
        parse_local dtp (inp.end_at.getD "") = none) ∧
      create_validate dtp inp now = .error .malformedTime) ∨
    (∃ s0 e0, ¬ missingCond inp ∧ valid_email (pyStrip (inp.email.getD "")) = true ∧
      parse_local dtp (inp.start_at.getD "") = some s0 ∧
      parse_local dtp (inp.end_at.getD "") = some e0 ∧
      ((∃ r, validate_times s0 e0 now = .error r ∧
          create_validate dtp inp now = .error r) ∨
       (∃ s' e', validate_times s0 e0 now = .ok s' e' ∧
          create_validate dtp inp now =
            .ok (pyStrip (inp.title.getD "")) (pyStrip (inp.name.getD ""))
              (if pyStrip (inp.email.getD "") = "" then none
               else some (pyStrip (inp.email.getD ""))) s' e'))) := by
  by_cases hm : missingCond inp
  · left
    refine ⟨hm, ?_⟩
    unfold missingCond at hm
    simp only [create_validate]
    rw [if_pos hm]
  · have hm' := hm
    unfold missingCond at hm'
    right
    by_cases hv : valid_email (pyStrip (inp.email.getD "")) = false
    · left
      refine ⟨hm, hv, ?_⟩
      simp only [create_validate]
      rw [if_neg hm', if_pos hv]
    · have hv' : valid_email (pyStrip (inp.email.getD "")) = true := by
        cases hvv : valid_email (pyStrip (inp.email.getD "")) with
        | false => exact absurd hvv hv
        | true => rfl
      right
      cases hs : parse_local dtp (inp.start_at.getD "") with
      | none =>
          left
          refine ⟨hm, hv', Or.inl rfl, ?_⟩
          simp only [create_validate]
          rw [if_neg hm', if_neg hv, hs]
      | some s0 =>
          cases he : parse_local dtp (inp.end_at.getD "") with
          | none =>
              left
              refine ⟨hm, hv', Or.inr rfl, ?_⟩
              simp only [create_validate]
              rw [if_neg hm', if_neg hv, hs, he]
          | some e0 =>
              right
              refine ⟨s0, e0, hm, hv', rfl, rfl, ?_⟩
              cases hvt : validate_times s0 e0 now with
              | error r =>
                  left
                  refine ⟨r, rfl, ?_⟩
                  simp only [create_validate]
                  rw [if_neg hm', if_neg hv, hs, he]
                  dsimp only
                  rw [hvt]
              | ok s' e' =>
                  right
                  refine ⟨s', e', rfl, ?_⟩
                  simp only [create_validate]
                  rw [if_neg hm', if_neg hv, hs, he]
                  dsimp only
                  rw [hvt]

theorem create_validate_missing_iff (dtp : DtParse) (inp : CreateInput) (now : Int) :
    create_validate dtp inp now = .error .missingField ↔ missingCond inp := by
  constructor
  · intro h
    rcases create_validate_outcomes dtp inp now with
        ⟨hm, -⟩ | ⟨hm, -, hcv⟩ | ⟨hm, -, -, hcv⟩ | ⟨s0, e0, hm, -, -, -, hrest⟩
    · exact hm
    · have hx := h.symm.trans hcv
      simp at hx
    · have hx := h.symm.trans hcv
      simp at hx
    · rcases hrest with ⟨r, hvt, hcv⟩ | ⟨s', e', -, hcv⟩
      · have hx := h.symm.trans hcv
        injection hx with hr
        rcases validate_times_error_shape hvt with h1 | h1 | h1 <;>
          rw [← hr] at h1 <;> exact Reject.noConfusion h1
      · exact VResult.noConfusion (h.symm.trans hcv)
  · intro hmiss
    rcases create_validate_outcomes dtp inp now with
        ⟨-, hcv⟩ | ⟨hm, -, -⟩ | ⟨hm, -, -, -⟩ | ⟨s0, e0, hm, -, -, -, -⟩ <;>
      first
        | exact hcv
        | exact absurd hmiss hm

theorem create_validate_invalidEmail_iff (dtp : DtParse) (inp : CreateInput) (now : Int) :
    create_validate dtp inp now = .error .invalidEmail ↔
      (¬ missingCond inp ∧ valid_email (pyStrip (inp.email.getD "")) = false) := by
  constructor
  · intro h
    rcases create_validate_outcomes dtp inp now with
        ⟨hm, hcv⟩ | ⟨hm, hv, -⟩ | ⟨hm, -, -, hcv⟩ | ⟨s0, e0, hm, hv, -, -, hrest⟩
    · have hx := h.symm.trans hcv
      simp at hx
    · exact ⟨hm, hv⟩
    · have hx := h.symm.trans hcv
      simp at hx
    · rcases hrest with ⟨r, hvt, hcv⟩ | ⟨s', e', -, hcv⟩
      · have hx := h.symm.trans hcv
        injection hx with hr
        rcases validate_times_error_shape hvt with h1 | h1 | h1 <;>
          rw [← hr] at h1 <;> exact Reject.noConfusion h1
      · exact VResult.noConfusion (h.symm.trans hcv)
  · rintro ⟨hmiss, hbad⟩
    rcases create_validate_outcomes dtp inp now with
        ⟨hm, -⟩ | ⟨-, -, hcv⟩ | ⟨-, hv, -, -⟩ | ⟨s0, e0, -, hv, -, -, -⟩
    · exact absurd hm hmiss
    · exact hcv
    · rw [hbad] at hv
      exact Bool.noConfusion hv
    · rw [hbad] at hv
      exact Bool.noConfusion hv

theorem create_validate_malformed_iff (dtp : DtParse) (inp : CreateInput) (now : Int) :
    create_validate dtp inp now = .error .malformedTime ↔
      (¬ missingCond inp ∧ valid_email (pyStrip (inp.email.getD "")) = true ∧
       (parse_local dtp (inp.start_at.getD "") = none ∨
        parse_local dtp (inp.end_at.getD "") = none)) := by
  constructor
  · intro h
    rcases create_validate_outcomes dtp inp now with
        ⟨hm, hcv⟩ | ⟨hm, hv, hcv⟩ | ⟨hm, hv, hp, -⟩ | ⟨s0, e0, hm, hv, hs, he, hrest⟩
    · have hx := h.symm.trans hcv
      simp at hx
    · have hx := h.symm.trans hcv
      simp at hx
    · exact ⟨hm, hv, hp⟩
    · rcases hrest with ⟨r, hvt, hcv⟩ | ⟨s', e', -, hcv⟩
      · have hx := h.symm.trans hcv
        injection hx with hr
        rcases validate_times_error_shape hvt with h1 | h1 | h1 <;>
          rw [← hr] at h1 <;> exact Reject.noConfusion h1
      · exact VResult.noConfusion (h.symm.trans hcv)
  · rintro ⟨hmiss, hvem, hp⟩
    rcases create_validate_outcomes dtp inp now with
        ⟨hm, -⟩ | ⟨-, hv, -⟩ | ⟨-, -, -, hcv⟩ | ⟨s0, e0, -, -, hs, he, -⟩
    · exact absurd hm hmiss
    · rw [hvem] at hv
      exact Bool.noConfusion hv
    · exact hcv
    · rcases hp with hp | hp
      · rw [hp] at hs
        exact Option.noConfusion hs
      · rw [hp] at he
        exact Option.noConfusion he

/-- When all text checks pass and both times parse, the result of the create
validation is exactly the outcome of the time checks, decorated with the
stripped text fields and the `email or None` value. -/
theorem create_validate_parsed {dtp : DtParse} {inp : CreateInput} {now s0 e0 : Int}
    (hmiss : ¬ missingCond inp)
    (hvem : valid_email (pyStrip (inp.email.getD "")) = true)
    (hs : parse_local dtp (inp.start_at.getD "") = some s0)
    (he : parse_local dtp (inp.end_at.getD "") = some e0) :
    create_validate dtp inp now =
      match validate_times s0 e0 now with
      | .ok s' e' =>
          .ok (pyStrip (inp.title.getD "")) (pyStrip (inp.name.getD ""))
            (if pyStrip (inp.email.getD "") = "" then none
             else some (pyStrip (inp.email.getD ""))) s' e'
      | .error r => .error r := by
  have hm' := hmiss
  unfold missingCond at hm'
  have hv : ¬ (valid_email (pyStrip (inp.email.getD "")) = false) := by
    rw [hvem]
    exact Bool.noConfusion
  simp only [create_validate]
  rw [if_neg hm', if_neg hv, hs, he]

theorem create_validate_ok_elim {dtp : DtParse} {inp : CreateInput} {now : Int}
    {t n : String} {em : Option String} {s e : Int}
    (h : create_validate dtp inp now = .ok t n em s e) :
    ∃ s0 e0, parse_local dtp (inp.start_at.getD "") = some s0 ∧
      parse_local dtp (inp.end_at.getD "") = some e0 ∧
      validate_times s0 e0 now = .ok s e := by
  rcases create_validate_outcomes dtp inp now with
      ⟨-, hcv⟩ | ⟨-, -, hcv⟩ | ⟨-, -, -, hcv⟩ | ⟨s0, e0, -, -, hs, he, hrest⟩
  · exact VResult.noConfusion (hcv.symm.trans h)
  · exact VResult.noConfusion (hcv.symm.trans h)
  · exact VResult.noConfusion (hcv.symm.trans h)
  · rcases hrest with ⟨r, hvt, hcv⟩ | ⟨s', e', hvt, hcv⟩
    · exact VResult.noConfusion (hcv.symm.trans h)
    · have hx := hcv.symm.trans h
      injection hx with h1 h2 h3 h4 h5
      rw [h4, h5] at hvt
      exact ⟨s0, e0, hs, he, hvt⟩

/-- Any interval that survives the whole validation chain has a positive,
at most 6-hour duration and minute-aligned endpoints. -/
theorem create_validate_ok_bounds {dtp : DtParse} {inp : CreateInput} {now : Int}
    {t n : String} {em : Option String} {s e : Int}
    (h : create_validate dtp inp now = .ok t n em s e) :
    0 < e - s ∧ e - s ≤ 21600 ∧ s % 60 = 0 ∧ e % 60 = 0 := by
  obtain ⟨s0, e0, hs, he, hvt⟩ := create_validate_ok_elim h
  rw [validate_times_ok_iff] at hvt
  obtain ⟨h1, h2, -, h4, h5⟩ := hvt
  have hs60 := parse_local_mod60 hs
  have he60 := parse_local_mod60 he
  have her : rolloverEnd s0 e0 % 60 = 0 := rolloverEnd_mod60 he60
  refine ⟨?_, ?_, ?_, ?_⟩ <;> omega

/-! ## The store invariant -/

/-- Invariant of every reachable store: pairwise non-overlapping intervals
with distinct ids below the autoincrement counter, and every row a valid
interval: positive duration of at most 6 hours, minute-aligned endpoints. -/
def StoreInv (st : Store) : Prop :=
  st.bookings.Pairwise (fun a b => ¬ overlaps a b ∧ a.id ≠ b.id) ∧
  ∀ b ∈ st.bookings, 0 < b.end_at - b.start_at ∧ b.end_at - b.start_at ≤ 21600 ∧
    b.start_at % 60 = 0 ∧ b.end_at % 60 = 0 ∧ b.id < st.next_id

theorem storeInv_empty : StoreInv Store.empty :=
  ⟨List.Pairwise.nil, fun b hb => absurd hb (List.not_mem_nil b)⟩

theorem create_booking_inv {dtp : DtParse} {inp : CreateInput} {now : Int}
    {st : Store} (h : StoreInv st) : StoreInv (create_booking dtp inp now st).2 := by
  unfold create_booking
  cases hv : create_validate dtp inp now with
  | error r => exact h
  | ok t n em s e =>
      dsimp only
      cases hc : get_conflict s e none st.bookings with
      | some b => exact h
      | none =>
          dsimp only
          constructor
          · rw [List.pairwise_append]
            refine ⟨h.1, by simp, ?_⟩
            intro a ha b' hb'
            rw [List.mem_singleton] at hb'
            subst hb'
            have hno := (get_conflict_none_iff s e st.bookings).mp hc a ha
            refine ⟨fun hov => hno ⟨hov.1, hov.2⟩, ?_⟩
            exact Nat.ne_of_lt (h.2 a ha).2.2.2.2
          · intro b' hb'
            rw [List.mem_append] at hb'
            rcases hb' with hb' | hb'
            · have hx := h.2 b' hb'
              exact ⟨hx.1, hx.2.1, hx.2.2.1, hx.2.2.2.1,
                Nat.lt_succ_of_lt hx.2.2.2.2⟩
            · rw [List.mem_singleton] at hb'
              subst hb'
              have hbounds := create_validate_ok_bounds hv
              exact ⟨hbounds.1, hbounds.2.1, hbounds.2.2.1, hbounds.2.2.2,
                Nat.lt_succ_self _⟩

theorem delete_booking_inv {id : Nat} {st : Store} (h : StoreInv st) :
    StoreInv (delete_booking id st).2 := by
  unfold delete_booking
  cases hf : st.bookings.find? (fun b => decide (b.id = id)) with
  | none => exact h
  | some b =>
      constructor
      · exact List.Pairwise.sublist (List.filter_sublist st.bookings) h.1
      · intro b' hb'
        exact h.2 b' (List.mem_filter.mp hb').1

theorem foldl_inv (dtp : DtParse) (ops : List Op) :
    ∀ st, StoreInv st → StoreInv (ops.foldl (applyOp dtp) st) := by
  induction ops with
  | nil => exact fun st h => h
  | cons op rest ih =>
      intro st h
      rw [List.foldl_cons]
      apply ih
      cases op with
      | create inp now => exact create_booking_inv h
      | delete id => exact delete_booking_inv h

theorem run_inv (dtp : DtParse) (ops : List Op) : StoreInv (run dtp ops) :=
  foldl_inv dtp ops Store.empty storeInv_empty

/-! ## List helpers for the read path and deletion -/

theorem foldl_clip (ds de : Int) (l : List Booking) (n : Int) :
    l.foldl (fun acc b => acc + max 0 ((min b.end_at de - max b.start_at ds) / 60)) n =
      n + (l.map (fun b => max 0 ((min b.end_at de - max b.start_at ds) / 60))).sum := by
  induction l generalizing n with
  | nil => simp
  | cons x xs ih =>
      rw [List.foldl_cons, List.map_cons, List.sum_cons, ih]
      ring

theorem perm_cons_filter_of_nodup {l : List Booking} {b : Booking} {idv : Nat}
    (hn : (l.map Booking.id).Nodup) (hb : b ∈ l) (hid : b.id = idv) :
    l.Perm (b :: l.filter (fun x => decide ¬(x.id = idv))) := by
  induction l with
  | nil => cases hb
  | cons c t ih =>
      rw [List.map_cons, List.nodup_cons] at hn
      by_cases hc : c.id = idv
      · have hbc : b = c := by
          cases hb with
          | head => rfl
          | tail _ hbt =>
              exfalso
              apply hn.1
              rw [hc, ← hid]
              exact List.mem_map_of_mem Booking.id hbt
        subst hbc
        have hfilter : t.filter (fun x => decide ¬(x.id = idv)) = t := by
          rw [List.filter_eq_self]
          intro a ha
          simp only [decide_eq_true_eq]
          intro haid
          have hmem : a.id ∈ t.map Booking.id := List.mem_map_of_mem _ ha
          rw [haid, ← hid] at hmem
          exact hn.1 hmem
        have hpc : (decide ¬(b.id = idv)) = false := by simp [hid]
        rw [List.filter_cons, hpc, if_neg Bool.false_ne_true, hfilter]
      · have hbt : b ∈ t := by
          cases hb with
          | head => exact absurd hid hc
          | tail _ hx => exact hx
        have hperm := ih hn.2 hbt
        have hpc : (decide ¬(c.id = idv)) = true := by simp [hc]
        rw [List.filter_cons, hpc, if_pos rfl]
        exact (hperm.cons c).trans (List.Perm.swap b c _)

/-! ## Concrete fixtures (all on 2025-01-01 / 2025-01-02, day numbers
20089 / 20090 since the epoch) -/

/-- Create request for 2025-01-02 10:00–11:00. -/
def inpA : CreateInput :=
  { title := some "Standup", name := some "Amal", email := none,
    start_at := some "2025-01-02 10:00", end_at := some "2025-01-02 11:00" }

/-- Create request for 2025-01-02 10:30–11:30, overlapping `inpA`. -/
def inpB : CreateInput :=
  { title := some "Review", name := some "Badr", email := none,
    start_at := some "2025-01-02 10:30", end_at := some "2025-01-02 11:30" }

/-- A reservation 20:00–23:00 on the epoch day. -/
def bkEvening : Booking :=
  { id := 1, title := "Rehearsal", name := "Amal", email := none,
    start_at := 72000, end_at := 82800 }

/-- A reservation 23:00–01:00 crossing midnight of the epoch day,
touching `bkEvening` at 23:00. -/
def bkMidnight : Booking :=
  { id := 2, title := "Late show", name := "Badr", email := none,
    start_at := 82800, end_at := 90000 }

/-- A reservation 21:00–01:00 overlapping `bkEvening`. -/
def bkOverlap : Booking :=
  { id := 3, title := "Concert", name := "Caro", email := none,
    start_at := 75600, end_at := 90000 }

/-- Input whose start text is a single space: truthy for the required-field
check, but unparseable as a date. -/
def wsInput : CreateInput :=
  { title := some "Team sync", name := some "Dana", email := some "",
    start_at := some " ", end_at := some "2025-01-01 10:00" }

/-! ## Claims -/

/-- C1: two concurrent creates with overlapping candidate intervals on the
empty store.  The source's conflict scan and insert are separate storage
operations with nothing atomic around the pair, so the interleaving
check₁, check₂, insert₁, insert₂ lets both requests pass the conflict scan
against the still-empty committed state and both insert: both succeed and
the final store holds two overlapping reservations, contradicting the
claimed at-most-one-writer-wins outcome.  A sequential schedule of the very
same two requests does produce one success and one `Conflict`, showing the
failure is the missing atomicity, not the conflict predicate. -/
theorem claim1_race_both_insert :
    (exec2 dtparse_model inpA inpB 0 [true, false, true, false]).pc1 =
        .succeeded ⟨1, "Standup", "Amal", none, 1735812000, 1735815600⟩ ∧
    (exec2 dtparse_model inpA inpB 0 [true, false, true, false]).pc2 =
        .succeeded ⟨2, "Review", "Badr", none, 1735813800, 1735817400⟩ ∧
    (exec2 dtparse_model inpA inpB 0 [true, false, true, false]).store.bookings =
        [⟨1, "Standup", "Amal", none, 1735812000, 1735815600⟩,
         ⟨2, "Review", "Badr", none, 1735813800, 1735817400⟩] ∧
    overlaps ⟨1, "Standup", "Amal", none, 1735812000, 1735815600⟩
        ⟨2, "Review", "Badr", none, 1735813800, 1735817400⟩ ∧
    (exec2 dtparse_model inpA inpB 0 [true, true, false, false]).pc2 =
        .rejected (.conflict ⟨1, "Standup", "Amal", none, 1735812000, 1735815600⟩) := by
  decide

/-- C2: every store reachable by sequential creates and deletes from the
empty store has pairwise non-overlapping half-open intervals; a validated
create whose candidate overlaps an existing reservation returns
`Conflict` and leaves the store untouched; and a candidate that merely
touches an existing reservation (existing end = candidate start, or
candidate end = existing start) is not reported as a conflict. -/
theorem claim2_store_never_overlaps :
    (∀ (dtp : DtParse) (ops : List Op),
        (run dtp ops).bookings.Pairwise (fun a b => ¬ overlaps a b)) ∧
    (∀ (dtp : DtParse) (inp : CreateInput) (now : Int) (st : Store)
        (t n : String) (em : Option String) (s e : Int),
        create_validate dtp inp now = .ok t n em s e →
        (∃ b ∈ st.bookings, b.start_at < e ∧ b.end_at > s) →
        ∃ c, create_booking dtp inp now st = (.error (.conflict c), st)) ∧
    (∀ A B : Booking, A.end_at = B.start_at →
        get_conflict B.start_at B.end_at none [A] = none) := by
  refine ⟨?_, ?_, ?_⟩
  · intro dtp ops
    exact ((run_inv dtp ops).1).imp (fun h => h.1)
  · intro dtp inp now st t n em s e hv hex
    obtain ⟨c, hc, -⟩ := get_conflict_of_exists hex
    refine ⟨c, ?_⟩
    unfold create_booking
    rw [hv]
    dsimp only
    rw [hc]
  · intro A B hAB
    rw [get_conflict_none_iff]
    intro b hb
    rw [List.mem_singleton] at hb
    subst hb
    intro hcon
    rw [hAB] at hcon
    exact absurd hcon.2 (lt_irrefl _)

/-- C2 witness: two overlapping creates leave a non-overlapping (singleton)
store, the second one is rejected with `Conflict`, and the touching pair
23:00 / 23:00 raises no conflict. -/
theorem claim2_witness :
    ((run dtparse_model [Op.create inpA 0, Op.create inpB 0]).bookings.Pairwise
        (fun a b => ¬ overlaps a b)) ∧
    (∃ c, create_booking dtparse_model inpB 0 (run dtparse_model [Op.create inpA 0]) =
        (.error (.conflict c), run dtparse_model [Op.create inpA 0])) ∧
    get_conflict bkMidnight.start_at bkMidnight.end_at none [bkEvening] = none := by
  refine ⟨claim2_store_never_overlaps.1 dtparse_model _, ?_, ?_⟩
  · exact claim2_store_never_overlaps.2.1 dtparse_model inpB 0
      (run dtparse_model [Op.create inpA 0]) "Review" "Badr" none 1735813800 1735817400
      (by decide) (by decide)
  · exact claim2_store_never_overlaps.2.2 bkEvening bkMidnight (by decide)

/-- C3 counterexample: a whitespace-only `startAt` text is truthy in Python,
so it passes the required-field check unchanged (the source never strips the
two time texts) and reaches the parser, which fails on it
(`dateutil` raises on a string with no date tokens): the reported reason is
`MalformedTime`, not `MissingField` as the claim states. -/
theorem claim3_counterexample :
    create_validate dtparse_model wsInput 0 = .error .malformedTime ∧
    ¬ create_validate dtparse_model wsInput 0 = .error .missingField := by
  decide

/-- C3 (amended): the seven checks run in exactly the spec's order with the
first failure winning, except that step 1 tests the `startAt`/`endAt` texts
raw (Python truthiness, no strip), so a whitespace-only time text passes
step 1 and is rejected at step 3 with `MalformedTime`.  `title` and
`organizerName` are stripped before the emptiness test; the email check only
runs when no field is missing; parsing only when the email is acceptable;
and the time checks (rollover, past, non-positive, duration) only on parsed
instants, in that order. -/
theorem claim3_validation_order :
    (∀ (dtp : DtParse) (inp : CreateInput) (now : Int),
        create_validate dtp inp now = .error .missingField ↔ missingCond inp) ∧
    (∀ (dtp : DtParse) (inp : CreateInput) (now : Int),
        create_validate dtp inp now = .error .invalidEmail ↔
          (¬ missingCond inp ∧ valid_email (pyStrip (inp.email.getD "")) = false)) ∧
    (∀ (dtp : DtParse) (inp : CreateInput) (now : Int),
        create_validate dtp inp now = .error .malformedTime ↔
          (¬ missingCond inp ∧ valid_email (pyStrip (inp.email.getD "")) = true ∧
           (parse_local dtp (inp.start_at.getD "") = none ∨
            parse_local dtp (inp.end_at.getD "") = none))) ∧
    (∀ (dtp : DtParse) (inp : CreateInput) (now s0 e0 : Int),
        ¬ missingCond inp →
        valid_email (pyStrip (inp.email.getD "")) = true →
        parse_local dtp (inp.start_at.getD "") = some s0 →
        parse_local dtp (inp.end_at.getD "") = some e0 →
        create_validate dtp inp now =
          match validate_times s0 e0 now with
          | .ok s' e' =>
              .ok (pyStrip (inp.title.getD "")) (pyStrip (inp.name.getD ""))
                (if pyStrip (inp.email.getD "") = "" then none
                 else some (pyStrip (inp.email.getD ""))) s' e'
          | .error r => .error r) ∧
    (∀ s e0 now : Int,
        validate_times s e0 now = .error .pastBooking ↔ s < now) ∧
    (∀ s e0 now : Int,
        validate_times s e0 now = .error .nonPositiveDuration ↔
          (¬ s < now ∧ rolloverEnd s e0 ≤ s)) ∧
    (∀ s e0 now : Int,
        validate_times s e0 now = .error .durationExceeded ↔
          (¬ s < now ∧ ¬ rolloverEnd s e0 ≤ s ∧ rolloverEnd s e0 - s > 6 * 3600)) := by
  refine ⟨create_validate_missing_iff, create_validate_invalidEmail_iff,
    create_validate_malformed_iff,
    fun dtp inp now s0 e0 hm hv hs he => create_validate_parsed hm hv hs he,
    fun s e0 now => validate_times_pastBooking_iff,
    fun s e0 now => validate_times_nonPositive_iff,
    fun s e0 now => validate_times_durationExceeded_iff⟩

/-- C3 witness: the characterization applied to a concrete fully valid
request. -/
theorem claim3_witness :
    create_validate dtparse_model inpA 0 =
      match validate_times 1735812000 1735815600 0 with
      | .ok s' e' =>
          .ok (pyStrip (inpA.title.getD "")) (pyStrip (inpA.name.getD ""))
            (if pyStrip (inpA.email.getD "") = "" then none
             else some (pyStrip (inpA.email.getD ""))) s' e'
      | .error r => .error r :=
  claim3_validation_order.2.2.2.1 dtparse_model inpA 0 1735812000 1735815600
    (by decide) (by decide) (by decide) (by decide)

/-- C4: the overnight rollover adds exactly one day iff the normalized end
shares the start's calendar date with a strictly earlier time-of-day, is a
no-op in every other case, never applies twice, and on the spec's example
(start 2025-01-01 22:00, end 2025-01-01 01:00) normalizes the end to
2025-01-02 01:00, a 3-hour duration that the time checks accept. -/
theorem claim4_overnight_rollover :
    (∀ s e : Int, (dateOf e = dateOf s ∧ timeOf e < timeOf s) →
        rolloverEnd s e = e + 86400) ∧
    (∀ s e : Int, ¬ (dateOf e = dateOf s ∧ timeOf e < timeOf s) →
        rolloverEnd s e = e) ∧
    (∀ s e : Int, rolloverEnd s (rolloverEnd s e) = rolloverEnd s e) ∧
    (parse_local dtparse_model "2025-01-01 22:00" = some 1735768800 ∧
     parse_local dtparse_model "2025-01-01 01:00" = some 1735693200 ∧
     rolloverEnd 1735768800 1735693200 = 1735693200 + 86400 ∧
     parse_local dtparse_model "2025-01-02 01:00" =
       some (rolloverEnd 1735768800 1735693200) ∧
     validate_times 1735768800 1735693200 0 = .ok 1735768800 1735779600 ∧
     (1735779600 : Int) - 1735768800 = 10800) := by
  exact ⟨fun s e h => rolloverEnd_hit h, fun s e h => rolloverEnd_miss h,
    rolloverEnd_idem, by decide⟩

/-- C4 witness: the rollover fires on the overnight example and does not
fire on the already-rolled end. -/
theorem claim4_witness :
    rolloverEnd 1735768800 1735693200 = 1735693200 + 86400 ∧
    rolloverEnd 1735768800 1735779600 = 1735779600 :=
  ⟨claim4_overnight_rollover.1 1735768800 1735693200 (by decide),
   claim4_overnight_rollover.2.1 1735768800 1735779600 (by decide)⟩

/-- C5 counterexample: the Firestore variant's delete route
(`functions/main.py:delete_booking`) answers success for an id that is not
in the store — a Firestore document delete succeeds silently on an absent
document and the route never reports not-found — so "delete of an id not
present reports NotFound" fails for that variant. -/
theorem claim5_counterexample :
    (fs_delete_booking 7 Store.empty).1 = .ok ∧
    ¬ (fs_delete_booking 7 Store.empty).1 = DeleteResult.notFound ∧
    (fs_delete_booking 7 Store.empty).2 = Store.empty := by
  decide

/-- C5 (amended): in the SQLite app (`hall_booking.py`), deleting an absent
id reports `NotFound` and changes nothing; deleting a present id reports
success, keeps the id counter, and (when ids are distinct, as in every
reachable store) removes exactly that reservation; deleting the same id
twice therefore yields success then `NotFound`.  The Firestore variant's
delete differs from the claim: it reports success unconditionally — absent
ids still leave the store unchanged, but no `NotFound` is ever produced. -/
theorem delete_booking_absent {idv : Nat} {st : Store}
    (habs : ∀ b ∈ st.bookings, b.id ≠ idv) :
    delete_booking idv st = (.notFound, st) := by
  unfold delete_booking
  have hf : st.bookings.find? (fun b => decide (b.id = idv)) = none := by
    rw [List.find?_eq_none]
    intro x hx
    simp [habs x hx]
  rw [hf]

theorem claim5_delete_semantics :
    (∀ (idv : Nat) (st : Store), (∀ b ∈ st.bookings, b.id ≠ idv) →
        delete_booking idv st = (.notFound, st)) ∧
    (∀ (idv : Nat) (st : Store) (b : Booking), b ∈ st.bookings → b.id = idv →
        (delete_booking idv st).1 = .ok ∧
        (delete_booking idv st).2.next_id = st.next_id ∧
        ((st.bookings.map Booking.id).Nodup →
          st.bookings.Perm (b :: (delete_booking idv st).2.bookings)) ∧
        (delete_booking idv (delete_booking idv st).2).1 = .notFound) ∧
    (∀ (idv : Nat) (st : Store),
        (fs_delete_booking idv st).1 = .ok ∧
        ((∀ b ∈ st.bookings, b.id ≠ idv) → (fs_delete_booking idv st).2 = st)) := by
  refine ⟨?_, ?_, ?_⟩
  · exact fun idv st habs => delete_booking_absent habs
  · intro idv st b hb hid
    have hf : ∃ c, st.bookings.find? (fun b => decide (b.id = idv)) = some c := by
      have : (st.bookings.find? (fun b => decide (b.id = idv))).isSome = true :=
        List.find?_isSome.mpr ⟨b, hb, by simp [hid]⟩
      cases hq : st.bookings.find? (fun b => decide (b.id = idv)) with
      | none => rw [hq] at this; cases this
      | some c => exact ⟨c, rfl⟩
    obtain ⟨c, hc⟩ := hf
    refine ⟨?_, ?_, ?_, ?_⟩
    · unfold delete_booking
      rw [hc]
    · unfold delete_booking
      rw [hc]
    · intro hn
      have hbook : (delete_booking idv st).2.bookings =
          st.bookings.filter (fun x => decide ¬(x.id = idv)) := by
        unfold delete_booking
        rw [hc]
      rw [hbook]
      exact perm_cons_filter_of_nodup hn hb hid
    · have hst2 : (delete_booking idv st).2 =
          ⟨st.bookings.filter (fun x => decide ¬(x.id = idv)), st.next_id⟩ := by
        unfold delete_booking
        rw [hc]
      rw [hst2]
      have habs2 : ∀ x ∈ (⟨st.bookings.filter (fun x => decide ¬(x.id = idv)),
          st.next_id⟩ : Store).bookings, x.id ≠ idv := by
        intro x hx
        have := List.mem_filter.mp hx
        simpa using this.2
      rw [delete_booking_absent habs2]
  · intro idv st
    refine ⟨rfl, fun habs => ?_⟩
    unfold fs_delete_booking
    have : st.bookings.filter (fun x => decide ¬(x.id = idv)) = st.bookings := by
      rw [List.filter_eq_self]
      intro a ha
      simp [habs a ha]
    rw [this]

/-- C5 witness: concrete runs of both delete routes. -/
theorem claim5_witness :
    delete_booking 5 ⟨[bkEvening], 2⟩ = (.notFound, ⟨[bkEvening], 2⟩) ∧
    (delete_booking 1 ⟨[bkEvening], 2⟩).1 = .ok ∧
    [bkEvening].Perm (bkEvening :: (delete_booking 1 ⟨[bkEvening], 2⟩).2.bookings) ∧
    (delete_booking 1 (delete_booking 1 ⟨[bkEvening], 2⟩).2).1 = .notFound ∧
    (fs_delete_booking 5 ⟨[bkEvening], 2⟩).2 = ⟨[bkEvening], 2⟩ :=
  ⟨claim5_delete_semantics.1 5 ⟨[bkEvening], 2⟩ (by decide),
   (claim5_delete_semantics.2.1 1 ⟨[bkEvening], 2⟩ bkEvening (by decide) (by decide)).1,
   (claim5_delete_semantics.2.1 1 ⟨[bkEvening], 2⟩ bkEvening (by decide)
      (by decide)).2.2.1 (by decide),
   (claim5_delete_semantics.2.1 1 ⟨[bkEvening], 2⟩ bkEvening (by decide)
      (by decide)).2.2.2,
   (claim5_delete_semantics.2.2 5 ⟨[bkEvening], 2⟩).2 (by decide)⟩

theorem get_conflict_singleton (a1 a2 : Int) (B : Booking) :
    get_conflict a1 a2 none [B] =
      if (B.start_at < a2 ∧ B.end_at > a1) then some B else none := by
  unfold get_conflict
  by_cases hp : (B.start_at < a2 ∧ B.end_at > a1)
  · rw [if_pos hp]
    have hb : B.hits a1 a2 = true := (hits_iff B a1 a2).mpr hp
    simp [List.filter_singleton, hb]
  · rw [if_neg hp]
    have hb : B.hits a1 a2 = false := by
      cases hh : B.hits a1 a2 with
      | true => exact absurd ((hits_iff B a1 a2).mp hh) hp
      | false => rfl
    simp [List.filter_singleton, hb]

/-- C6: against a store holding exactly `B`, the detector reports `B` for a
candidate `A` precisely when `A.start < B.end` and `A.end > B.start`; the
predicate is symmetric; and intervals with `A.end <= B.start` are clear of
each other in both directions. -/
theorem claim6_conflict_predicate :
    (∀ A B : Booking,
        get_conflict A.start_at A.end_at none [B] = some B ↔
          (A.start_at < B.end_at ∧ A.end_at > B.start_at)) ∧
    (∀ A B : Booking, A.start_at < B.end_at → A.end_at > B.start_at →
        get_conflict A.start_at A.end_at none [B] = some B ∧
        get_conflict B.start_at B.end_at none [A] = some A) ∧
    (∀ A B : Booking, A.end_at ≤ B.start_at →
        get_conflict A.start_at A.end_at none [B] = none ∧
        get_conflict B.start_at B.end_at none [A] = none) := by
  refine ⟨?_, ?_, ?_⟩
  · intro A B
    rw [get_conflict_singleton]
    by_cases h : (B.start_at < A.end_at ∧ B.end_at > A.start_at)
    · rw [if_pos h]
      exact ⟨fun _ => ⟨h.2, h.1⟩, fun _ => rfl⟩
    · rw [if_neg h]
      exact ⟨fun hx => Option.noConfusion hx, fun hx => absurd ⟨hx.2, hx.1⟩ h⟩
  · intro A B h1 h2
    constructor
    · rw [get_conflict_singleton, if_pos ⟨h2, h1⟩]
    · rw [get_conflict_singleton, if_pos ⟨h1, h2⟩]
  · intro A B h
    constructor
    · rw [get_conflict_singleton, if_neg]
      intro hc
      omega
    · rw [get_conflict_singleton, if_neg]
      intro hc
      omega

/-- C6 witness: touching intervals (23:00 / 23:00) are clear both ways;
overlapping ones conflict both ways. -/
theorem claim6_witness :
    (get_conflict bkEvening.start_at bkEvening.end_at none [bkMidnight] = none ∧
     get_conflict bkMidnight.start_at bkMidnight.end_at none [bkEvening] = none) ∧
    (get_conflict bkEvening.start_at bkEvening.end_at none [bkOverlap] = some bkOverlap ∧
     get_conflict bkOverlap.start_at bkOverlap.end_at none [bkEvening] = some bkEvening) :=
  ⟨claim6_conflict_predicate.2.2 bkEvening bkMidnight (by decide),
   claim6_conflict_predicate.2.1 bkEvening bkOverlap (by decide) (by decide)⟩

/-- C7: the day view shows exactly the reservations overlapping the
half-open day window `[sd*86400, sd*86400+86400)`, sorted ascending by
`startAt`; for reservation sets satisfying the data-model invariant
(`start < end`) the minute total is the sum over visible reservations of
the floored whole minutes of each interval clipped to the window, floored
per reservation before accumulating; 20:00–23:00 contributes 180 minutes
and 23:00–01:00 contributes 60 minutes to the first day. -/
theorem claim7_day_aggregation :
    (∀ (sd : Int) (bs : List Booking) (b : Booking),
        b ∈ (index sd bs).1 ↔
          (b ∈ bs ∧ b.start_at < sd * 86400 + 86400 ∧ b.end_at > sd * 86400)) ∧
    (∀ (sd : Int) (bs : List Booking), (index sd bs).1.Pairwise bookingLE) ∧
    (∀ (sd : Int) (bs : List Booking), (∀ b ∈ bs, b.start_at < b.end_at) →
        (index sd bs).2 =
          ((index sd bs).1.map
            (fun b => (min b.end_at (sd * 86400 + 86400) -
              max b.start_at (sd * 86400)) / 60)).sum) ∧
    ((min bkEvening.end_at 86400 - max bkEvening.start_at 0) / 60 = 180 ∧
     (min bkMidnight.end_at 86400 - max bkMidnight.start_at 0) / 60 = 60 ∧
     index 0 [bkEvening, bkMidnight] = ([bkEvening, bkMidnight], 240)) := by
  refine ⟨?_, ?_, ?_, by decide⟩
  · intro sd bs b
    simp only [index]
    rw [List.mem_insertionSort, List.mem_filter, hits_iff]
  · intro sd bs
    simp only [index]
    exact List.sorted_insertionSort bookingLE _
  · intro sd bs hpos
    simp only [index]
    rw [foldl_clip, zero_add]
    apply congrArg List.sum
    apply List.map_congr_left
    intro b hb
    rw [List.mem_insertionSort, List.mem_filter, hits_iff] at hb
    have hlt := hpos b hb.1
    have h1 : 0 ≤ (min b.end_at (sd * 86400 + 86400) - max b.start_at (sd * 86400)) / 60 := by
      apply Int.ediv_nonneg _ (by norm_num)
      omega
    omega

/-- C7 witness: the minute total over the two concrete reservations equals
the sum of their clipped per-reservation floors. -/
theorem claim7_witness :
    (index 0 [bkEvening, bkMidnight]).2 =
      ((index 0 [bkEvening, bkMidnight]).1.map
        (fun b => (min b.end_at (0 * 86400 + 86400) -
          max b.start_at (0 * 86400)) / 60)).sum :=
  claim7_day_aggregation.2.2.1 0 [bkEvening, bkMidnight] (by decide)

/-- C8: after rollover, the past check rejects exactly when
`start_at < now`: a start equal to the injected now is never rejected as
`PastBooking`, and a start one minute before now always is. -/
theorem claim8_past_boundary :
    (∀ s e0 now : Int, validate_times s e0 now = .error .pastBooking ↔ s < now) ∧
    (∀ e0 now : Int, ¬ validate_times now e0 now = .error .pastBooking) ∧
    (∀ e0 now : Int, validate_times (now - 60) e0 now = .error .pastBooking) := by
  refine ⟨fun s e0 now => validate_times_pastBooking_iff, ?_, ?_⟩
  · intro e0 now h
    exact absurd (validate_times_pastBooking_iff.mp h) (lt_irrefl now)
  · intro e0 now
    exact validate_times_pastBooking_iff.mpr (by omega)

/-- C8 witness: the boundary at a concrete now. -/
theorem claim8_witness :
    validate_times (60 - 60) 3600 60 = .error .pastBooking ∧
    ¬ validate_times 60 3660 60 = .error .pastBooking :=
  ⟨claim8_past_boundary.2.2 3600 60, claim8_past_boundary.2.1 3660 60⟩

/-- C9: a candidate that passed the earlier checks is accepted at exactly
6h00m and rejected with `DurationExceeded` at 6h01m, and every reservation
in every reachable store has a positive duration of at most 6 hours. -/
theorem claim9_duration_boundary :
    (∀ s now : Int, ¬ s < now →
        validate_times s (s + 21600) now = .ok s (s + 21600) ∧
        validate_times s (s + 21660) now = .error .durationExceeded) ∧
    (∀ (dtp : DtParse) (ops : List Op), ∀ b ∈ (run dtp ops).bookings,
        0 < b.end_at - b.start_at ∧ b.end_at - b.start_at ≤ 21600) := by
  refine ⟨?_, ?_⟩
  · intro s now hnow
    have h1 : rolloverEnd s (s + 21600) = s + 21600 :=
      rolloverEnd_add_of_pos (by norm_num)
    have h2 : rolloverEnd s (s + 21660) = s + 21660 :=
      rolloverEnd_add_of_pos (by norm_num)
    constructor
    · rw [validate_times_ok_iff]
      exact ⟨rfl, h1.symm, hnow, by omega, by omega⟩
    · rw [validate_times_durationExceeded_iff]
      exact ⟨hnow, by omega, by omega⟩
  · intro dtp ops b hb
    have hx := (run_inv dtp ops).2 b hb
    exact ⟨hx.1, hx.2.1⟩

/-- C9 witness: the 6h boundary at concrete instants, and the duration
bounds on the reservation created by a concrete run. -/
theorem claim9_witness :
    (validate_times 0 (0 + 21600) 0 = .ok 0 (0 + 21600) ∧
     validate_times 0 (0 + 21660) 0 = .error .durationExceeded) ∧
    (0 < (1735815600 : Int) - 1735812000 ∧ (1735815600 : Int) - 1735812000 ≤ 21600) :=
  ⟨claim9_duration_boundary.1 0 0 (by decide),
   claim9_duration_boundary.2 dtparse_model [Op.create inpA 0]
     ⟨1, "Standup", "Amal", none, 1735812000, 1735815600⟩ (by decide)⟩

/-- C10: every parsed instant has a zero seconds component (seconds of the
input are discarded by reconstruction, not rounded), every reservation in a
reachable store is minute-aligned at both endpoints, and therefore every
interval clipped to a (midnight-aligned) day window has a length that is an
exact whole number of minutes — the floor division by 60 loses nothing. -/
theorem claim10_minute_alignment :
    (∀ (dtp : DtParse) (str : String) (t : Int),
        parse_local dtp str = some t → t % 60 = 0) ∧
    (∀ (dtp : DtParse) (ops : List Op), ∀ b ∈ (run dtp ops).bookings,
        b.start_at % 60 = 0 ∧ b.end_at % 60 = 0) ∧
    (∀ (dtp : DtParse) (ops : List Op), ∀ b ∈ (run dtp ops).bookings, ∀ sd : Int,
        (min b.end_at (sd * 86400 + 86400) - max b.start_at (sd * 86400)) % 60 = 0 ∧
        ((min b.end_at (sd * 86400 + 86400) - max b.start_at (sd * 86400)) / 60) * 60 =
          min b.end_at (sd * 86400 + 86400) - max b.start_at (sd * 86400)) := by
  refine ⟨fun dtp str t h => parse_local_mod60 h, ?_, ?_⟩
  · intro dtp ops b hb
    have hx := (run_inv dtp ops).2 b hb
    exact ⟨hx.2.2.1, hx.2.2.2.1⟩
  · intro dtp ops b hb sd
    have hx := (run_inv dtp ops).2 b hb
    have hs := hx.2.2.1
    have he := hx.2.2.2.1
    have hb60 : (sd * 86400) % 60 = 0 :=
      Int.emod_eq_zero_of_dvd ⟨sd * 1440, by ring⟩
    have hmod : (min b.end_at (sd * 86400 + 86400) -
        max b.start_at (sd * 86400)) % 60 = 0 := by
      have h1 : min b.end_at (sd * 86400 + 86400) % 60 = 0 := by
        rcases le_total b.end_at (sd * 86400 + 86400) with h | h
        · rw [min_eq_left h]
          exact he
        · rw [min_eq_right h]
          omega
      have h2 : max b.start_at (sd * 86400) % 60 = 0 := by
        rcases le_total b.start_at (sd * 86400) with h | h
        · rw [max_eq_right h]
          exact hb60
        · rw [max_eq_left h]
          exact hs
      omega
    exact ⟨hmod, Int.ediv_mul_cancel (Int.dvd_of_emod_eq_zero hmod)⟩

/-- C10 witness: a concrete parse is minute-aligned, and the clip of a
reservation from a concrete run is an exact whole number of minutes. -/
theorem claim10_witness :
    (1735768800 : Int) % 60 = 0 ∧
    (min (1735815600 : Int) (20090 * 86400 + 86400) -
        max (1735812000 : Int) (20090 * 86400)) % 60 = 0 :=
  ⟨claim10_minute_alignment.1 dtparse_model "2025-01-01 22:00" 1735768800 (by decide),
   (claim10_minute_alignment.2.2 dtparse_model [Op.create inpA 0]
     ⟨1, "Standup", "Amal", none, 1735812000, 1735815600⟩ (by decide) 20090).1⟩

end HallBooking
